import Mathlib

/-!
Verification development for the `newton-pipeline` repository
(`src/data_loader/ingestion.py` and `src/db/utils.py`).

The Python pipeline is shallowly embedded as follows.

* JSON values (`dict` / `list` / `str` / ...) become the inductive `Json`.
* Python subscripting `x[k]` on a string key becomes `Json.getKey`, which
  returns `Except PyErr Json`: a `KeyError` for a dict without the key and a
  `TypeError` for a non-dict, mirroring CPython.
* A caught exception that is logged (`logging.error`) and turned into an
  implicit `return None` is modelled by an `Option` result paired with the
  list of emitted log lines; an uncaught exception is the `.error` branch of
  an outer `Except`.
* The `transformation` module (`nytas_transform_date`,
  `nytas_transform_author`) is imported by `ingestion.py` but is not among
  the sources.  Modelled from the spec: the spec calls these "external
  collaborators with fixed input/output contracts ... pure, stateless mapping
  functions", so they enter every definition as opaque pure parameters
  `tDate tAuthor : Json → Json`.
* The HTTP layer (`requests.get` + `raise_for_status` + `.json()`) is
  modelled by an oracle `net : String → Nat → FetchOutcome` giving the
  outcome of the n-th GET attempt against a URL; `raise_for_status` raises
  exactly for statuses in `[400, 600)`, as the `requests` library does.
* The `csv.DictWriter` with `delimiter="|"` and default dialect is modelled
  character-exactly: QUOTE_MINIMAL quoting (a field is quoted iff it
  contains the delimiter, the quote character, CR or LF, with inner quotes
  doubled; a row consisting of a single empty field is written as a quoted
  empty field), `\r\n` row terminator, missing keys written as the empty
  restval, and a `ValueError` raised on a key outside `fieldnames` after the
  preceding rows have already been written.
* The filesystem is a map from paths to contents plus a writability
  predicate; `open(path, "w")` truncates, so the staged content never
  depends on the previous content of the file.
-/

namespace NewtonPipeline

/-- A JSON value as produced by `res.json()` in Python: the payload consumed
by `filter_nyt_archive`. -/
inductive Json where
  | str : String → Json
  | num : Int → Json
  | bool : Bool → Json
  | null : Json
  | arr : List Json → Json
  | obj : List (String × Json) → Json
deriving Inhabited, Repr

/-- The Python exceptions relevant to `ingestion.py`: `KeyError` (caught by
`filter_nyt_archive`) and `TypeError` (never caught). -/
inductive PyErr where
  | keyError (key : String)
  | typeError (msg : String)
deriving Repr, DecidableEq

/-- Python `x[k]` for a string key `k`: a value for a dict holding the key,
`KeyError` for a dict without it, `TypeError` for anything that is not a
dict. -/
def Json.getKey : Json → String → Except PyErr Json
  | .obj kvs, k =>
    match kvs.find? (fun kv => kv.1 = k) with
    | some kv => .ok kv.2
    | none => .error (.keyError k)
  | _, _ => .error (.typeError "object is not subscriptable")

/-- Python iteration `for x in v`: lists yield their elements, dicts their
keys, strings their one-character substrings; other values raise
`TypeError`. -/
def Json.pyIter : Json → Except PyErr (List Json)
  | .arr xs => .ok xs
  | .obj kvs => .ok (kvs.map (fun kv => .str kv.1))
  | .str s => .ok (s.data.map (fun c => .str (String.mk [c])))
  | _ => .error (.typeError "object is not iterable")

/-- The flat record built for one article by `filter_nyt_archive`: the dict
literal with keys `headline`, `publication_date`, `author`, `news_desk`,
`url`. -/
structure FlatRecord where
  headline : Json
  publication_date : Json
  author : Json
  news_desk : Json
  url : Json
deriving Repr

/-- The body of the list comprehension in `filter_nyt_archive` for a single
`article`, with the subscripting performed in the evaluation order of the
Python dict literal.  `tDate` and `tAuthor` stand for the pure external
transformers `nytas_transform_date` and `nytas_transform_author`. -/
def flattenArticle (tDate tAuthor : Json → Json) (article : Json) :
    Except PyErr FlatRecord := do
  let hl ← article.getKey "headline"
  let hlMain ← hl.getKey "main"
  let pd ← article.getKey "pub_date"
  let bl ← article.getKey "byline"
  let blOrig ← bl.getKey "original"
  let nd ← article.getKey "news_desk"
  let wu ← article.getKey "web_url"
  return { headline := hlMain
           publication_date := tDate pd
           author := tAuthor blOrig
           news_desk := nd
           url := wu }

/-- The `logging.error` line of `filter_nyt_archive`, keyed by the missing
key of the caught `KeyError` (the Python format string interpolates
`str(err)`, which for `KeyError(k)` contains `k`; the surrounding quote
characters of the message are elided here). -/
def filterLogMsg (key : String) : String :=
  "Unable to process res input (reconsider input structure): " ++ key

/-- The list comprehension of `filter_nyt_archive`: articles are flattened
left to right and the first exception aborts the whole comprehension. -/
def flattenAll (tDate tAuthor : Json → Json) :
    List Json → Except PyErr (List FlatRecord)
  | [] => .ok []
  | a :: rest => do
    let r ← flattenArticle tDate tAuthor a
    let rs ← flattenAll tDate tAuthor rest
    return r :: rs

/-- `filter_nyt_archive(res)`.  The outer `Except` is an uncaught Python
exception; inside it, the `Option` is the return value (`none` models the
implicit `return None` after the `except KeyError` branch) and the
`List String` holds the log lines emitted by the call. -/
def filter_nyt_archive (tDate tAuthor : Json → Json) (res : Json) :
    Except PyErr (Option (List FlatRecord) × List String) :=
  match (do
      let response ← res.getKey "response"
      let docs ← response.getKey "docs"
      let articles ← docs.pyIter
      flattenAll tDate tAuthor articles :
    Except PyErr (List FlatRecord)) with
  | .ok records => .ok (some records, [])
  | .error (.keyError k) => .ok (none, [filterLogMsg k])
  | .error e => .error e

/-- `construct_nyt_archive_search_url(year, month, version)`, the f-string
of the source verbatim. -/
def construct_nyt_archive_search_url (year : Int) (month : Int)
    (version : String := "v1") : String :=
  s!"https://api.nytimes.com/svc/archive/{version}/{year}/{month}.json"

/-- The outcome of one `requests.get` attempt: a response with a final
status code and a parsed JSON body, or a `requests.RequestException` raised
before a response is obtained (timeout, connection error). -/
inductive FetchOutcome where
  | response (status : Nat) (body : Json)
  | requestError (msg : String)
deriving Repr

/-- `Response.raise_for_status` of the `requests` library: it raises
`HTTPError` exactly for client-error statuses in `[400, 500)` and
server-error statuses in `[500, 600)`, returning the error message, and
does nothing for any other status. -/
def raiseForStatus (status : Nat) (url : String) : Option String :=
  if 400 ≤ status ∧ status < 500 then
    some (toString status ++ " Client Error for url: " ++ url)
  else if 500 ≤ status ∧ status < 600 then
    some (toString status ++ " Server Error for url: " ++ url)
  else
    none

/-- The `logging.error` line of `extract_nyt_archive` (quote characters of
the original message elided). -/
def fetchLogMsg (errMsg : String) : String :=
  "Bad API request to NYT Archive Search: " ++ errMsg

/-- `extract_nyt_archive(api_key, year, month)`.  `net url n` is the outcome
of the n-th GET attempt against `url` (with the api-key as query credential);
the function performs the single attempt `net url 0`.  The result pairs the
returned value (`none` models the implicit `return None` after the caught
`RequestException`) with the emitted log lines; the function is total, so no
exception escapes it. -/
def extract_nyt_archive (net : String → Nat → FetchOutcome)
    (apiKey : String) (year month : Int) : Option Json × List String :=
  let url := construct_nyt_archive_search_url year month
  match net url 0 with
  | .requestError msg => (none, [fetchLogMsg msg])
  | .response status body =>
    match raiseForStatus status url with
    | some msg => (none, [fetchLogMsg msg])
    | none => (some body, [])

/-- A character that forces QUOTE_MINIMAL quoting for the dialect of the
source (`delimiter="|"`, default quote character and `\r\n` terminator):
the delimiter, the quote character, or a line-terminator character. -/
def specialChar (c : Char) : Bool :=
  c = '|' || c = '"' || c = '\r' || c = '\n'

/-- Doubling of quote characters inside a quoted csv field (the default
`doublequote=True` of the csv module). -/
def escapeQuotes : List Char → List Char
  | [] => []
  | c :: rest =>
    if c = '"' then '"' :: '"' :: escapeQuotes rest
    else c :: escapeQuotes rest

/-- One csv field under QUOTE_MINIMAL: quoted with inner quotes doubled
when it contains a character that needs it, written verbatim otherwise. -/
def encodeField (v : List Char) : List Char :=
  if v.any specialChar then '"' :: (escapeQuotes v ++ ['"']) else v

/-- Fields of a row joined by the `|` delimiter. -/
def joinFields : List (List Char) → List Char
  | [] => []
  | [f] => f
  | f :: fs => f ++ '|' :: joinFields fs

/-- One row as written by `csv.writer.writerow` with `delimiter="|"`:
encoded fields joined by the delimiter and terminated by `\r\n`; a row
consisting of a single empty field is written as a quoted empty field
(observed CPython behaviour, which keeps such a row distinguishable from an
empty line). -/
def encodeRow (fields : List (List Char)) : List Char :=
  if fields = [[]] then ['"', '"', '\r', '\n']
  else joinFields (fields.map encodeField) ++ ['\r', '\n']

/-- Lookup of a field in a record, the dict access performed by
`csv.DictWriter._dict_to_list`.  A record is the association list of a
Python dict (keys unique). -/
def lookupField (rec : List (String × String)) (f : String) : Option String :=
  (rec.find? (fun kv => kv.1 = f)).map (fun kv => kv.2)

/-- `csv.DictWriter._dict_to_list`: a key of the record outside `fieldnames`
raises `ValueError`; otherwise the row lists the record's values in
`fieldnames` order, a missing key contributing the default restval
(written as the empty field). -/
def dictToRow (fieldNames : List String) (rec : List (String × String)) :
    Except String (List (List Char)) :=
  match rec.find? (fun kv => !(fieldNames.contains kv.1)) with
  | some kv => .error ("dict contains fields not in fieldnames: " ++ kv.1)
  | none => .ok (fieldNames.map (fun f => ((lookupField rec f).getD "").data))

/-- `csv.DictWriter.writerows`: rows are written one after the other until
the first record that raises `ValueError`; the pair carries the characters
actually written and the raised error, if any (the rows preceding a failing
record are already on the file). -/
def writeRows (fieldNames : List String) :
    List (List (String × String)) → List Char × Option String
  | [] => ([], none)
  | rec :: rest =>
    match dictToRow fieldNames rec with
    | .error e => ([], some e)
    | .ok row =>
      let tail := writeRows fieldNames rest
      (encodeRow row ++ tail.1, tail.2)

/-- The characters written by the body of `stage` (header row via
`writeheader`, then `writerows`), together with the `ValueError` raised by
`writerows`, if any. -/
def stageContent (records : List (List (String × String)))
    (fieldNames : List String) : List Char × Option String :=
  let tail := writeRows fieldNames records
  (encodeRow (fieldNames.map String.data) ++ tail.1, tail.2)

/-- The filesystem visible to `stage`: contents by path, plus which paths
`open(path, "w")` can open. -/
structure FileSystem where
  files : String → Option String
  writable : String → Bool

/-- Result of a call to `stage`: the filesystem after the call and the
uncaught exception, if one was raised.  `stage` returns `None` on success,
so the result carries no other value, and it has no log component because
the function contains no logging call. -/
structure StageResult where
  fs : FileSystem
  raised : Option String

/-- `stage(records, field_names, path)`.  `open(path, "w")` truncates the
destination, so the written content is computed from the arguments alone;
a failure to open the path propagates with the filesystem unchanged, and a
`ValueError` of `DictWriter` propagates with the partially written file on
disk (the `with` block closes the file on the way out). -/
def stage (records : List (List (String × String)))
    (fieldNames : List String) (path : String) (fs : FileSystem) :
    StageResult :=
  if fs.writable path then
    let content := stageContent records fieldNames
    { fs := { fs with
              files := fun p =>
                if p = path then some (String.mk content.1) else fs.files p }
      raised := content.2 }
  else
    { fs := fs, raised := some ("could not open " ++ path) }

/-- The field-name list the pipeline stages `FlatRecord`s with. -/
def nytFieldNames : List String :=
  ["headline", "publication_date", "author", "news_desk", "url"]

/-- A csv reader for the same dialect (`delimiter="|"`, default quoting,
doubled quote characters), used to state the round-trip property of the
staging file.  The scanner walks the characters with the state of
`csv.reader`: inside or outside a quoted field, the field read so far and
the fields of the current row.  Rows are separated by CR, LF or CRLF
outside quotes; a quote character opening an empty field starts a quoted
field; a doubled quote character inside a quoted field is a literal one. -/
def scanRows : List Char → Bool → List Char → List (List Char) →
    List (List (List Char))
  | [], _, field, row =>
    if field = [] ∧ row = [] then [] else [row ++ [field]]
  | c :: cs, true, field, row =>
    if c = '"' then
      if cs.head? = some '"' then scanRows cs.tail true (field ++ ['"']) row
      else scanRows cs false field row
    else scanRows cs true (field ++ [c]) row
  | c :: cs, false, field, row =>
    if c = '"' then
      if field = [] then scanRows cs true field row
      else scanRows cs false (field ++ ['"']) row
    else if c = '|' then
      scanRows cs false [] (row ++ [field])
    else if c = '\r' then
      if cs.head? = some '\n' then (row ++ [field]) :: scanRows cs.tail false [] []
      else (row ++ [field]) :: scanRows cs false [] []
    else if c = '\n' then
      (row ++ [field]) :: scanRows cs false [] []
    else
      scanRows cs false (field ++ [c]) row
termination_by cs _ _ _ => cs.length
decreasing_by all_goals (simp [List.length_tail]; try omega)

/-- Parsing a whole staging file into its rows of fields. -/
def parseRows (content : List Char) : List (List (List Char)) :=
  scanRows content false [] []

/-- The five values of a record with exactly the staged key set, in the
declared field order. -/
structure FlatRow where
  headline : String
  publication_date : String
  author : String
  news_desk : String
  url : String

/-- The association list (Python dict) of a `FlatRow`. -/
def FlatRow.toRecord (r : FlatRow) : List (String × String) :=
  [("headline", r.headline), ("publication_date", r.publication_date),
   ("author", r.author), ("news_desk", r.news_desk), ("url", r.url)]

/-- The field values of a `FlatRow` as character lists, in the declared
field order. -/
def FlatRow.fieldsData (r : FlatRow) : List (List Char) :=
  [r.headline.data, r.publication_date.data, r.author.data,
   r.news_desk.data, r.url.data]

/-! Helper lemmas. -/

@[simp] lemma exceptBind_ok {α β ε : Type} (a : α) (f : α → Except ε β) :
    (Except.ok a >>= f : Except ε β) = f a := rfl

@[simp] lemma exceptBind_error {α β ε : Type} (e : ε) (f : α → Except ε β) :
    (Except.error e >>= f : Except ε β) = .error e := rfl

/-- Flattening a list of articles that all flatten successfully succeeds,
returns one record per article and keeps the input order. -/
lemma flattenAll_ok_all (tD tA : Json → Json) :
    ∀ l : List Json, (∀ a ∈ l, ∃ r, flattenArticle tD tA a = .ok r) →
    ∃ rs, flattenAll tD tA l = .ok rs ∧ rs.length = l.length ∧
      ∀ (i : Nat) (h1 : i < l.length) (h2 : i < rs.length),
        flattenArticle tD tA (l.get ⟨i, h1⟩) = .ok (rs.get ⟨i, h2⟩) := by
  intro l
  induction l with
  | nil =>
    intro _
    exact ⟨[], rfl, rfl, by intro i h1 h2; exact absurd h1 (by simp)⟩
  | cons a l ih =>
    intro h
    obtain ⟨r, hr⟩ := h a (by simp)
    obtain ⟨rs, hrs, hlen, hidx⟩ := ih (fun b hb => h b (by simp [hb]))
    refine ⟨r :: rs, ?_, by simp [hlen], ?_⟩
    · unfold flattenAll
      rw [hr]
      show (flattenAll tD tA l >>= fun rs => pure (r :: rs)) = .ok (r :: rs)
      rw [hrs]
      rfl
    · intro i h1 h2
      cases i with
      | zero => simpa using hr
      | succ n =>
        have := hidx n (by simpa using h1) (by simpa using h2)
        simpa using this

/-- Flattening aborts with the first error: if the articles before index
`i` flatten successfully and article `i` raises, the whole comprehension
raises that error. -/
lemma flattenAll_error_at (tD tA : Json → Json) :
    ∀ (l : List Json) (i : Nat) (hi : i < l.length) (e : PyErr),
      (∀ j (hj : j < i),
        ∃ r, flattenArticle tD tA (l.get ⟨j, Nat.lt_trans hj hi⟩) = .ok r) →
      flattenArticle tD tA (l.get ⟨i, hi⟩) = .error e →
      flattenAll tD tA l = .error e := by
  intro l
  induction l with
  | nil => intro i hi; simp at hi
  | cons a l ih =>
    intro i hi e hpre hbad
    cases i with
    | zero =>
      unfold flattenAll
      rw [show flattenArticle tD tA a = .error e from by simpa using hbad]
      rfl
    | succ n =>
      obtain ⟨r, hr⟩ := hpre 0 (Nat.succ_pos n)
      have hr2 : flattenArticle tD tA a = .ok r := by simpa using hr
      have hrec : flattenAll tD tA l = .error e := by
        refine ih n (by simpa using hi) e ?_ (by simpa using hbad)
        intro j hj
        have := hpre (j + 1) (Nat.succ_lt_succ hj)
        simpa using this
      unfold flattenAll
      rw [hr2]
      show (flattenAll tD tA l >>= fun rs => pure (r :: rs)) = .error e
      rw [hrec]
      rfl

/-! The claims about `filter_nyt_archive`. -/

/-- C1: for a raw payload in which some article is missing a required key
(the articles before it being well formed), `filter_nyt_archive` fails for
the entire batch: it returns `None` (never a partial list of the records
flattened before the offending article) and logs the offending key. -/
theorem filter_aborts_batch_on_missing_key (tD tA : Json → Json)
    (res resp : Json) (articles : List Json)
    (hres : res.getKey "response" = .ok resp)
    (hdocs : resp.getKey "docs" = .ok (.arr articles))
    (i : Nat) (hi : i < articles.length) (k : String)
    (hpre : ∀ j (hj : j < i),
      ∃ r, flattenArticle tD tA (articles.get ⟨j, Nat.lt_trans hj hi⟩) = .ok r)
    (hbad : flattenArticle tD tA (articles.get ⟨i, hi⟩) = .error (.keyError k)) :
    filter_nyt_archive tD tA res = .ok (none, [filterLogMsg k]) := by
  have hall : flattenAll tD tA articles = .error (.keyError k) :=
    flattenAll_error_at tD tA articles i hi _ hpre hbad
  have hscrut : (do
      let response ← res.getKey "response"
      let docs ← response.getKey "docs"
      let articles ← docs.pyIter
      flattenAll tD tA articles : Except PyErr (List FlatRecord)) =
      .error (.keyError k) := by
    rw [hres, exceptBind_ok, hdocs, exceptBind_ok,
      show (Json.arr articles).pyIter = Except.ok articles from rfl,
      exceptBind_ok, hall]
  unfold filter_nyt_archive
  rw [hscrut]

/-- The articles of the witness payload for C1: a well-formed article
followed by one whose `byline` lacks `original`. -/
def c1Good : Json :=
  .obj [("headline", .obj [("main", .str "A")]), ("pub_date", .str "2023-05-01T00:00:00Z"),
        ("byline", .obj [("original", .str "By Jane Doe")]),
        ("news_desk", .str "Science"), ("web_url", .str "https://x/a")]

/-- An article whose `byline` dict is present but lacks the key
`original`. -/
def c1Bad : Json :=
  .obj [("headline", .obj [("main", .str "B")]), ("pub_date", .str "2023-05-02T00:00:00Z"),
        ("byline", .obj []),
        ("news_desk", .str "Arts"), ("web_url", .str "https://x/b")]

/-- Witness for C1 at a concrete payload whose second article is missing
`byline.original`. -/
theorem filter_aborts_batch_on_missing_key_witness :
    filter_nyt_archive (fun j => j) (fun j => j)
        (.obj [("response", .obj [("docs", .arr [c1Good, c1Bad])])]) =
      .ok (none, [filterLogMsg "original"]) := by
  refine filter_aborts_batch_on_missing_key (fun j => j) (fun j => j)
    (.obj [("response", .obj [("docs", .arr [c1Good, c1Bad])])])
    (.obj [("docs", .arr [c1Good, c1Bad])]) [c1Good, c1Bad] rfl rfl
    1 (by decide) "original" ?_ rfl
  intro j hj
  cases j with
  | zero => exact ⟨_, rfl⟩
  | succ n => exact absurd hj (by omega)

/-- C2: for a raw payload whose `response.docs` array holds only
well-formed articles, `filter_nyt_archive` returns a list of exactly as
many flat records, in the order of the input array, and logs nothing. -/
theorem filter_flattens_all_wellformed (tD tA : Json → Json)
    (res resp : Json) (articles : List Json)
    (hres : res.getKey "response" = .ok resp)
    (hdocs : resp.getKey "docs" = .ok (.arr articles))
    (hwf : ∀ a ∈ articles, ∃ r, flattenArticle tD tA a = .ok r) :
    ∃ records, filter_nyt_archive tD tA res = .ok (some records, []) ∧
      records.length = articles.length ∧
      ∀ (i : Nat) (h1 : i < articles.length) (h2 : i < records.length),
        flattenArticle tD tA (articles.get ⟨i, h1⟩) = .ok (records.get ⟨i, h2⟩) := by
  obtain ⟨rs, hrs, hlen, hidx⟩ := flattenAll_ok_all tD tA articles hwf
  refine ⟨rs, ?_, hlen, hidx⟩
  have hscrut : (do
      let response ← res.getKey "response"
      let docs ← response.getKey "docs"
      let articles ← docs.pyIter
      flattenAll tD tA articles : Except PyErr (List FlatRecord)) = .ok rs := by
    rw [hres, exceptBind_ok, hdocs, exceptBind_ok,
      show (Json.arr articles).pyIter = Except.ok articles from rfl,
      exceptBind_ok, hrs]
  unfold filter_nyt_archive
  rw [hscrut]

/-- Witness for C2 at a concrete two-article payload. -/
theorem filter_flattens_all_wellformed_witness :
    ∃ records, filter_nyt_archive (fun j => j) (fun j => j)
        (.obj [("response", .obj [("docs", .arr [c1Good, c1Good])])]) =
      .ok (some records, []) ∧
      records.length = ([c1Good, c1Good] : List Json).length ∧
      ∀ (i : Nat) (h1 : i < ([c1Good, c1Good] : List Json).length)
        (h2 : i < records.length),
        flattenArticle (fun j => j) (fun j => j)
            (([c1Good, c1Good] : List Json).get ⟨i, h1⟩) =
          .ok (records.get ⟨i, h2⟩) := by
  refine filter_flattens_all_wellformed (fun j => j) (fun j => j)
    (.obj [("response", .obj [("docs", .arr [c1Good, c1Good])])])
    (.obj [("docs", .arr [c1Good, c1Good])]) [c1Good, c1Good] rfl rfl ?_
  intro a ha
  have ha2 : a = c1Good := by simpa using ha
  exact ha2 ▸ ⟨_, rfl⟩

/-- C10: a payload lacking the top-level key `response`, or whose
`response` value lacks the key `docs`, is handled exactly like a
per-article missing key: `filter_nyt_archive` logs the offending key and
returns `None`, raising nothing. -/
theorem filter_missing_response_docs (tD tA : Json → Json) (res : Json) :
    (res.getKey "response" = .error (.keyError "response") →
      filter_nyt_archive tD tA res = .ok (none, [filterLogMsg "response"])) ∧
    (∀ resp, res.getKey "response" = .ok resp →
      resp.getKey "docs" = .error (.keyError "docs") →
      filter_nyt_archive tD tA res = .ok (none, [filterLogMsg "docs"])) := by
  constructor
  · intro h
    unfold filter_nyt_archive
    rw [h]
    rfl
  · intro resp h1 h2
    have hscrut : (do
        let response ← res.getKey "response"
        let docs ← response.getKey "docs"
        let articles ← docs.pyIter
        flattenAll tD tA articles : Except PyErr (List FlatRecord)) =
        .error (.keyError "docs") := by
      rw [h1, exceptBind_ok, h2, exceptBind_error]
    unfold filter_nyt_archive
    rw [hscrut]

/-- Witness for C10: a payload without `response`, and one whose
`response` dict has no `docs`. -/
theorem filter_missing_response_docs_witness :
    filter_nyt_archive (fun j => j) (fun j => j) (.obj []) =
      .ok (none, [filterLogMsg "response"]) ∧
    filter_nyt_archive (fun j => j) (fun j => j)
        (.obj [("response", .obj [("doc", .null)])]) =
      .ok (none, [filterLogMsg "docs"]) :=
  ⟨(filter_missing_response_docs (fun j => j) (fun j => j) (.obj [])).1 rfl,
   (filter_missing_response_docs (fun j => j) (fun j => j)
      (.obj [("response", .obj [("doc", .null)])])).2
      (.obj [("doc", .null)]) rfl rfl⟩

/-! The claims about `extract_nyt_archive` and the URL builder. -/

/-- C4 (counterexample): the claim says every fetch ending in a non-2xx
status is logged and turned into absence, but `raise_for_status` only
raises for statuses in `[400, 600)`: a final 300 response (an unfollowed
redirect-class status) is returned as a value and nothing is logged. -/
theorem extract_non2xx_counterexample :
    (extract_nyt_archive (fun _ _ => .response 300 (.obj [])) "key" 2023 5).1.isSome
      = true ∧
    (extract_nyt_archive (fun _ _ => .response 300 (.obj [])) "key" 2023 5).2 = [] :=
  ⟨rfl, rfl⟩

/-- C4 (amended): for every fetch attempt that ends in a 4xx or 5xx status,
a timeout or a connection error, `extract_nyt_archive` logs one error
describing the failure and returns absence; it raises nothing (the function
is total) and it makes exactly one attempt — its result only depends on the
outcome of the first GET. -/
theorem extract_absence_on_http_failure (net : String → Nat → FetchOutcome)
    (apiKey : String) (year month : Int) :
    (∀ msg, net (construct_nyt_archive_search_url year month) 0 = .requestError msg →
      extract_nyt_archive net apiKey year month = (none, [fetchLogMsg msg])) ∧
    (∀ status body,
      net (construct_nyt_archive_search_url year month) 0 = .response status body →
      400 ≤ status → status < 600 →
      ∃ msg, raiseForStatus status (construct_nyt_archive_search_url year month) =
          some msg ∧
        extract_nyt_archive net apiKey year month = (none, [fetchLogMsg msg])) ∧
    (∀ net2 : String → Nat → FetchOutcome,
      net2 (construct_nyt_archive_search_url year month) 0 =
        net (construct_nyt_archive_search_url year month) 0 →
      extract_nyt_archive net2 apiKey year month =
        extract_nyt_archive net apiKey year month) := by
  refine ⟨?_, ?_, ?_⟩
  · intro msg h
    simp only [extract_nyt_archive]
    rw [h]
  · intro status body h h4 h6
    by_cases h5 : status < 500
    · have hr : raiseForStatus status (construct_nyt_archive_search_url year month) =
          some (toString status ++ " Client Error for url: " ++
            construct_nyt_archive_search_url year month) := by
        unfold raiseForStatus
        rw [if_pos ⟨h4, h5⟩]
      refine ⟨_, hr, ?_⟩
      simp only [extract_nyt_archive]
      rw [h]
      simp only [hr]
    · have hr : raiseForStatus status (construct_nyt_archive_search_url year month) =
          some (toString status ++ " Server Error for url: " ++
            construct_nyt_archive_search_url year month) := by
        unfold raiseForStatus
        rw [if_neg (by omega), if_pos ⟨by omega, h6⟩]
      refine ⟨_, hr, ?_⟩
      simp only [extract_nyt_archive]
      rw [h]
      simp only [hr]
  · intro net2 h
    simp only [extract_nyt_archive]
    rw [h]

/-- Witness for C4 at a connection error, a 404 response and a shared first
attempt. -/
theorem extract_absence_on_http_failure_witness :
    extract_nyt_archive (fun _ _ => .requestError "connection refused") "key" 2023 5 =
      (none, [fetchLogMsg "connection refused"]) ∧
    (∃ msg, raiseForStatus 404 (construct_nyt_archive_search_url 2023 5) = some msg ∧
      extract_nyt_archive (fun _ _ => .response 404 .null) "key" 2023 5 =
        (none, [fetchLogMsg msg])) ∧
    extract_nyt_archive (fun _ _ => .response 404 .null) "key" 2023 5 =
      extract_nyt_archive (fun _ _ => .response 404 .null) "key" 2023 5 :=
  ⟨(extract_absence_on_http_failure (fun _ _ => .requestError "connection refused")
      "key" 2023 5).1 "connection refused" rfl,
   (extract_absence_on_http_failure (fun _ _ => .response 404 .null)
      "key" 2023 5).2.1 404 .null rfl (by omega) (by omega),
   (extract_absence_on_http_failure (fun _ _ => .response 404 .null)
      "key" 2023 5).2.2 (fun _ _ => .response 404 .null) rfl⟩

/-- C5: the URL builder returns exactly the archive-endpoint template with
the version, year and month substituted verbatim, for any values including
out-of-range months and negative years (no validation, no rejection). -/
theorem url_builder_exact_template (year month : Int) (version : String) :
    construct_nyt_archive_search_url year month version =
      "https://api.nytimes.com/svc/archive/" ++ version ++ "/" ++ toString year ++
        "/" ++ toString month ++ ".json" ∧
    construct_nyt_archive_search_url 2023 5 "v1" =
      "https://api.nytimes.com/svc/archive/v1/2023/5.json" ∧
    construct_nyt_archive_search_url 2023 13 "v1" =
      "https://api.nytimes.com/svc/archive/v1/2023/13.json" ∧
    construct_nyt_archive_search_url (-4) 0 "v9" =
      "https://api.nytimes.com/svc/archive/v9/-4/0.json" := by
  refine ⟨?_, rfl, rfl, rfl⟩
  simp [construct_nyt_archive_search_url, toString, String.append_assoc]

/-! The claims about `stage`. -/

/-- C8: staging the same records, field names and path twice leaves the
filesystem exactly as one call does (the second call fully overwrites the
first, appending nothing) and reports the same outcome. -/
theorem stage_idempotent (records : List (List (String × String)))
    (fieldNames : List String) (path : String) (fs : FileSystem) :
    (stage records fieldNames path
        (stage records fieldNames path fs).fs).fs.files =
      (stage records fieldNames path fs).fs.files ∧
    (stage records fieldNames path
        (stage records fieldNames path fs).fs).raised =
      (stage records fieldNames path fs).raised := by
  by_cases h : fs.writable path
  · constructor
    · funext p
      by_cases hp : p = path <;> simp [stage, h, hp]
    · simp [stage, h]
  · simp [stage, h]

/-- C9: when the destination path cannot be opened for writing, the
filesystem error propagates out of `stage` uncaught (the result records a
raised error, no log is emitted — `stage` has no logging at all — and the
filesystem is untouched). -/
theorem stage_propagates_fs_error (records : List (List (String × String)))
    (fieldNames : List String) (path : String) (fs : FileSystem)
    (h : fs.writable path = false) :
    stage records fieldNames path fs =
      { fs := fs, raised := some ("could not open " ++ path) } := by
  simp [stage, h]

/-- Witness for C9 at a filesystem where no path is writable. -/
theorem stage_propagates_fs_error_witness :
    stage [[("headline", "A")]] ["headline"] "staging.psv"
        ⟨fun _ => none, fun _ => false⟩ =
      { fs := ⟨fun _ => none, fun _ => false⟩,
        raised := some ("could not open " ++ "staging.psv") } :=
  stage_propagates_fs_error [[("headline", "A")]] ["headline"] "staging.psv"
    ⟨fun _ => none, fun _ => false⟩ rfl

/-- C6 (counterexample): the claim says each record is written as its
values joined by the pipe delimiter, but a value containing the delimiter
is quoted by the csv writer: staging the single record `{f: "a|b"}` writes
the line `"a|b"`, not the plain join `a|b`. -/
theorem stage_plain_join_counterexample :
    (stage [[("f", "a|b")]] ["f"] "staging.psv"
        ⟨fun _ => none, fun _ => true⟩).fs.files "staging.psv" ≠
      some ("f" ++ "\r\n" ++ "a|b" ++ "\r\n") ∧
    (stage [[("f", "a|b")]] ["f"] "staging.psv"
        ⟨fun _ => none, fun _ => true⟩).fs.files "staging.psv" =
      some "f\r\n\"a|b\"\r\n" := by
  exact ⟨by decide, rfl⟩

/-- Rows written by `writerows` when every record only holds declared
field names: one encoded row per record, in order, and no raised error. -/
lemma writeRows_all_keys_declared (fieldNames : List String) :
    ∀ records : List (List (String × String)),
      (∀ rec ∈ records, ∀ kv ∈ rec, fieldNames.contains kv.1 = true) →
      writeRows fieldNames records =
        ((records.map (fun rec => encodeRow (fieldNames.map (fun f =>
          ((lookupField rec f).getD "").data)))).flatten, none) := by
  intro records
  induction records with
  | nil => intro _; rfl
  | cons rec rest ih =>
    intro h
    have hfind : rec.find? (fun kv => !(fieldNames.contains kv.1)) = none := by
      rw [List.find?_eq_none]
      intro kv hkv
      have hmem := h rec (by simp) kv hkv
      simp at hmem ⊢
      exact hmem
    have hrest := ih (fun r hr kv hkv => h r (by simp [hr]) kv hkv)
    simp only [writeRows, dictToRow]
    rw [hfind, hrest]
    simp

/-- If some record of the batch holds a key outside the declared field
names, `writerows` raises. -/
lemma writeRows_raises_on_undeclared (fieldNames : List String)
    (rec : List (String × String)) (kv : String × String) (hkv : kv ∈ rec)
    (hout : fieldNames.contains kv.1 = false) :
    ∀ records : List (List (String × String)), rec ∈ records →
      (writeRows fieldNames records).2.isSome = true := by
  intro records
  induction records with
  | nil => intro hmem; simp at hmem
  | cons r rest ih =>
    intro hmem
    rcases hfind : r.find? (fun kv => !(fieldNames.contains kv.1)) with _ | kv2
    · rcases List.mem_cons.mp hmem with he | hm
      · exfalso
        subst he
        have hcontra := List.find?_eq_none.mp hfind kv hkv
        simp at hcontra hout
        exact hout hcontra
      · simp only [writeRows, dictToRow]
        rw [hfind]
        simp [ih hm]
    · simp only [writeRows, dictToRow]
      rw [hfind]
      simp

/-- C6 (amended): with a writable destination, `stage` truncates the file
at `path` and writes a header line of the field names followed by one
encoded row per record, each row listing the record's values (missing
fields empty) in the declared field order joined by the pipe delimiter with
csv minimal quoting applied to each field; other paths are untouched.  A
record holding a key outside the field names raises an error instead. -/
theorem stage_writes_delimited_file (records : List (List (String × String)))
    (fieldNames : List String) (path : String) (fs : FileSystem)
    (hw : fs.writable path = true) :
    ((∀ rec ∈ records, ∀ kv ∈ rec, fieldNames.contains kv.1 = true) →
      (stage records fieldNames path fs).raised = none ∧
      (stage records fieldNames path fs).fs.files path =
        some (String.mk (encodeRow (fieldNames.map String.data) ++
          (records.map (fun rec => encodeRow (fieldNames.map (fun f =>
            ((lookupField rec f).getD "").data)))).flatten)) ∧
      (∀ p, p ≠ path → (stage records fieldNames path fs).fs.files p = fs.files p)) ∧
    (∀ rec ∈ records, ∀ kv ∈ rec, fieldNames.contains kv.1 = false →
      (stage records fieldNames path fs).raised.isSome = true) := by
  constructor
  · intro hkeys
    have hrows := writeRows_all_keys_declared fieldNames records hkeys
    refine ⟨?_, ?_, ?_⟩
    · simp [stage, hw, stageContent, hrows]
    · simp [stage, hw, stageContent, hrows]
    · intro p hp
      simp [stage, hw, hp]
  · intro rec hrec kv hkv hout
    have hsome := writeRows_raises_on_undeclared fieldNames rec kv hkv hout
      records hrec
    simpa [stage, hw, stageContent] using hsome

/-! Step lemmas for the csv scanner. -/

lemma scanRows_other_false (c : Char) (cs field : List Char)
    (row : List (List Char)) (hq : c ≠ '"') (hp : c ≠ '|') (hr : c ≠ '\r')
    (hn : c ≠ '\n') :
    scanRows (c :: cs) false field row = scanRows cs false (field ++ [c]) row := by
  conv_lhs => rw [scanRows]
  simp [hq, hp, hr, hn]

lemma scanRows_other_true (c : Char) (cs field : List Char)
    (row : List (List Char)) (hq : c ≠ '"') :
    scanRows (c :: cs) true field row = scanRows cs true (field ++ [c]) row := by
  conv_lhs => rw [scanRows]
  simp [hq]

lemma scanRows_quote_open (cs : List Char) (row : List (List Char)) :
    scanRows ('"' :: cs) false [] row = scanRows cs true [] row := by
  conv_lhs => rw [scanRows]
  simp

lemma scanRows_quote_double (cs field : List Char) (row : List (List Char)) :
    scanRows ('"' :: '"' :: cs) true field row =
      scanRows cs true (field ++ ['"']) row := by
  conv_lhs => rw [scanRows]
  simp

lemma scanRows_quote_close (cs field : List Char) (row : List (List Char))
    (h : cs.head? ≠ some '"') :
    scanRows ('"' :: cs) true field row = scanRows cs false field row := by
  conv_lhs => rw [scanRows]
  simp [h]

lemma scanRows_pipe (cs field : List Char) (row : List (List Char)) :
    scanRows ('|' :: cs) false field row =
      scanRows cs false [] (row ++ [field]) := by
  conv_lhs => rw [scanRows]
  simp

lemma scanRows_crlf (cs field : List Char) (row : List (List Char)) :
    scanRows ('\r' :: '\n' :: cs) false field row =
      (row ++ [field]) :: scanRows cs false [] [] := by
  conv_lhs => rw [scanRows]
  simp

/-- A run of characters free of delimiter, quote and line breaks is
accumulated verbatim into the current field. -/
lemma scanRows_unquoted_run (v : List Char) :
    ∀ (cs field : List Char) (row : List (List Char)),
      v.all (fun c => !(specialChar c)) = true →
      scanRows (v ++ cs) false field row = scanRows cs false (field ++ v) row := by
  induction v with
  | nil => intro cs field row _; simp
  | cons c v ih =>
    intro cs field row h
    simp only [List.all_cons, Bool.and_eq_true] at h
    obtain ⟨hc, hv⟩ := h
    have hc2 : specialChar c = false := by simpa using hc
    simp only [specialChar, Bool.or_eq_false_iff, decide_eq_false_iff_not] at hc2
    obtain ⟨⟨⟨hp, hq⟩, hr⟩, hn⟩ := hc2
    rw [List.cons_append, scanRows_other_false c _ _ _ hq hp hr hn,
      ih cs (field ++ [c]) row hv]
    simp

/-- The escaped body of a quoted field followed by the closing quote is
read back verbatim, leaving the scanner after the closing quote. -/
lemma scanRows_escape (v : List Char) :
    ∀ (cs field : List Char) (row : List (List Char)), cs.head? ≠ some '"' →
      scanRows (escapeQuotes v ++ '"' :: cs) true field row =
        scanRows cs false (field ++ v) row := by
  induction v with
  | nil =>
    intro cs field row h
    simpa using scanRows_quote_close cs field row h
  | cons c v ih =>
    intro cs field row h
    by_cases hc : c = '"'
    · subst hc
      rw [show escapeQuotes ('"' :: v) = '"' :: '"' :: escapeQuotes v from by
        simp [escapeQuotes]]
      rw [List.cons_append, List.cons_append, scanRows_quote_double,
        ih cs (field ++ ['"']) row h]
      simp
    · rw [show escapeQuotes (c :: v) = c :: escapeQuotes v from by
        simp [escapeQuotes, hc]]
      rw [List.cons_append, scanRows_other_true c _ _ _ hc,
        ih cs (field ++ [c]) row h]
      simp

/-- One encoded field followed by a delimiter or a row terminator is read
back as the original field value. -/
lemma scanRows_encodeField (v cs : List Char) (row : List (List Char))
    (hcs : cs.head? = some '|' ∨ cs.head? = some '\r') :
    scanRows (encodeField v ++ cs) false [] row = scanRows cs false v row := by
  have hne : cs.head? ≠ some '"' := by
    rcases hcs with h | h <;> simp [h]
  by_cases hq : v.any specialChar
  · rw [show encodeField v = '"' :: (escapeQuotes v ++ ['"']) from by
      simp [encodeField, hq]]
    rw [List.cons_append, List.append_assoc, List.singleton_append,
      scanRows_quote_open]
    simpa using scanRows_escape v cs [] row hne
  · have hq2 : v.any specialChar = false := by simpa using hq
    have hall : v.all (fun c => !(specialChar c)) = true := by
      rw [List.all_eq_true]
      intro c hcv
      simp [List.any_eq_false.mp hq2 c hcv]
    rw [show encodeField v = v from by simp [encodeField, hq2]]
    simpa using scanRows_unquoted_run v cs [] row hall

/-- A pipe-joined sequence of encoded fields followed by a row terminator
is read back as one row holding the original fields. -/
lemma scanRows_joined (fields : List (List Char)) :
    ∀ (cs : List Char) (row : List (List Char)), fields ≠ [] →
      scanRows (joinFields (fields.map encodeField) ++ ('\r' :: '\n' :: cs))
          false [] row =
        (row ++ fields) :: scanRows cs false [] [] := by
  induction fields with
  | nil => intro cs row h; exact absurd rfl h
  | cons f fs ih =>
    intro cs row _
    cases fs with
    | nil =>
      rw [show joinFields ([f].map encodeField) = encodeField f from rfl,
        scanRows_encodeField f ('\r' :: '\n' :: cs) row (Or.inr rfl),
        scanRows_crlf]
    | cons g gs =>
      rw [show joinFields ((f :: g :: gs).map encodeField) =
          encodeField f ++ '|' :: joinFields ((g :: gs).map encodeField) from rfl,
        List.append_assoc, List.cons_append,
        scanRows_encodeField f
          ('|' :: (joinFields ((g :: gs).map encodeField) ++ ('\r' :: '\n' :: cs)))
          row (Or.inl rfl),
        scanRows_pipe, ih cs (row ++ [f]) (by simp)]
      simp

/-- One encoded row is read back as the original row of fields. -/
lemma scanRows_row (fields : List (List Char)) (hne : fields ≠ [])
    (cs : List Char) :
    scanRows (encodeRow fields ++ cs) false [] [] =
      fields :: scanRows cs false [] [] := by
  rcases fields with _ | ⟨f, fs⟩
  · exact absurd rfl hne
  rcases fs with _ | ⟨g, gs⟩
  · rcases f with _ | ⟨c, f⟩
    · rw [show encodeRow [([] : List Char)] = ['"', '"', '\r', '\n'] from by
        rw [encodeRow, if_pos rfl]]
      rw [show (['"', '"', '\r', '\n'] : List Char) ++ cs =
        '"' :: ('"' :: '\r' :: '\n' :: cs) from rfl]
      rw [scanRows_quote_open, scanRows_quote_close _ _ _ (by simp), scanRows_crlf]
      simp
    · rw [show encodeRow [c :: f] =
          joinFields ([c :: f].map encodeField) ++ ['\r', '\n'] from by
            rw [encodeRow, if_neg (by simp)],
        List.append_assoc, show (['\r', '\n'] : List Char) ++ cs =
          '\r' :: '\n' :: cs from rfl]
      simpa using scanRows_joined [c :: f] cs [] (by simp)
  · rw [show encodeRow (f :: g :: gs) =
        joinFields ((f :: g :: gs).map encodeField) ++ ['\r', '\n'] from by
          rw [encodeRow, if_neg (by simp)],
      List.append_assoc, show (['\r', '\n'] : List Char) ++ cs =
        '\r' :: '\n' :: cs from rfl]
    simpa using scanRows_joined (f :: g :: gs) cs [] (by simp)

/-- A concatenation of encoded nonempty rows parses back to exactly those
rows. -/
lemma scanRows_all_rows (rows : List (List (List Char)))
    (h : ∀ r ∈ rows, r ≠ []) :
    scanRows ((rows.map encodeRow).flatten) false [] [] = rows := by
  induction rows with
  | nil => rw [List.map_nil, List.flatten_nil, scanRows]; simp
  | cons r rest ih =>
    rw [List.map_cons, List.flatten_cons, scanRows_row r (h r (by simp)) _,
      ih (fun r2 h2 => h r2 (by simp [h2]))]

/-- The row written for one `FlatRow` record by `DictWriter`. -/
lemma dictToRow_flatRow (r : FlatRow) :
    dictToRow nytFieldNames (FlatRow.toRecord r) = .ok (FlatRow.fieldsData r) := rfl

/-- `writerows` on records with exactly the staged key set: one encoded
row per record and no error. -/
lemma writeRows_flatRows (rows : List FlatRow) :
    writeRows nytFieldNames (rows.map FlatRow.toRecord) =
      (((rows.map FlatRow.fieldsData).map encodeRow).flatten, none) := by
  induction rows with
  | nil => rfl
  | cons r rest ih =>
    simp only [List.map_cons, writeRows, dictToRow_flatRow, ih]
    simp [List.flatten_cons]

/-- C7 (round trip): staging any list of records whose key set is exactly
the five staged field names raises nothing, and re-parsing the staged
characters with the same dialect yields the header row followed by exactly
one row per record holding the original field values in the declared
order. -/
theorem stage_parse_round_trip (rows : List FlatRow) :
    (stageContent (rows.map FlatRow.toRecord) nytFieldNames).2 = none ∧
    parseRows (stageContent (rows.map FlatRow.toRecord) nytFieldNames).1 =
      (nytFieldNames.map String.data) :: rows.map FlatRow.fieldsData ∧
    (rows.map FlatRow.fieldsData).length = rows.length := by
  have hwr := writeRows_flatRows rows
  refine ⟨by simp [stageContent, hwr], ?_, by simp⟩
  have hcontent : (stageContent (rows.map FlatRow.toRecord) nytFieldNames).1 =
      ((((nytFieldNames.map String.data) :: rows.map FlatRow.fieldsData).map
        encodeRow).flatten) := by
    simp [stageContent, hwr, List.flatten_cons]
  rw [hcontent]
  unfold parseRows
  apply scanRows_all_rows
  intro r hr
  rcases List.mem_cons.mp hr with he | hm
  · subst he; simp [nytFieldNames]
  · obtain ⟨fr, _, hfr⟩ := List.mem_map.mp hm
    rw [← hfr]
    simp [FlatRow.fieldsData]

/-- A field free of delimiter, quote and line-break characters is written
verbatim, without quoting. -/
lemma encodeField_not_special (v : List Char) (h : v.any specialChar = false) :
    encodeField v = v := by
  simp [encodeField, h]

/-- C3: for every well-formed article the flat record maps `headline` to
`article.headline.main`, `publication_date` to the date transformer applied
to `article.pub_date`, `author` to the author transformer applied to
`article.byline.original`, `news_desk` passed through and `url` to
`article.web_url`; staging one such record (its values being plain strings)
with the declared field names produces a two-line file: the pipe-joined
header line followed by the pipe-joined values. -/
theorem flatten_maps_fields_and_stages (tD tA : Json → Json)
    (article hl hm pd bl bo nd wu : Json)
    (h1 : article.getKey "headline" = .ok hl)
    (h2 : hl.getKey "main" = .ok hm)
    (h3 : article.getKey "pub_date" = .ok pd)
    (h4 : article.getKey "byline" = .ok bl)
    (h5 : bl.getKey "original" = .ok bo)
    (h6 : article.getKey "news_desk" = .ok nd)
    (h7 : article.getKey "web_url" = .ok wu) :
    flattenArticle tD tA article =
      .ok { headline := hm, publication_date := tD pd, author := tA bo,
            news_desk := nd, url := wu } ∧
    (∀ vh vd va vn vu : String,
      hm = .str vh → tD pd = .str vd → tA bo = .str va →
      nd = .str vn → wu = .str vu →
      vh.data.any specialChar = false → vd.data.any specialChar = false →
      va.data.any specialChar = false → vn.data.any specialChar = false →
      vu.data.any specialChar = false →
      stageContent [FlatRow.toRecord ⟨vh, vd, va, vn, vu⟩] nytFieldNames =
        (("headline|publication_date|author|news_desk|url\r\n").data ++
          ((String.intercalate "|" [vh, vd, va, vn, vu]).data ++ ['\r', '\n']),
         none)) := by
  constructor
  · unfold flattenArticle
    simp only [h1, h2, h3, h4, h5, h6, h7, exceptBind_ok]
    rfl
  · intro vh vd va vn vu _ _ _ _ _ n1 n2 n3 n4 n5
    have hw := writeRows_flatRows [⟨vh, vd, va, vn, vu⟩]
    simp only [List.map_cons, List.map_nil] at hw
    have hrow : encodeRow (FlatRow.fieldsData ⟨vh, vd, va, vn, vu⟩) =
        (String.intercalate "|" [vh, vd, va, vn, vu]).data ++ ['\r', '\n'] := by
      rw [show FlatRow.fieldsData ⟨vh, vd, va, vn, vu⟩ =
        [vh.data, vd.data, va.data, vn.data, vu.data] from rfl]
      rw [encodeRow, if_neg (by simp)]
      simp only [List.map_cons, List.map_nil, encodeField_not_special _ n1,
        encodeField_not_special _ n2, encodeField_not_special _ n3,
        encodeField_not_special _ n4, encodeField_not_special _ n5]
      rw [show joinFields [vh.data, vd.data, va.data, vn.data, vu.data] =
        vh.data ++ '|' :: (vd.data ++ '|' :: (va.data ++ '|' ::
          (vn.data ++ '|' :: vu.data))) from rfl]
      rw [show String.intercalate "|" [vh, vd, va, vn, vu] =
        vh ++ "|" ++ vd ++ "|" ++ va ++ "|" ++ vn ++ "|" ++ vu from rfl]
      simp [String.data_append, List.append_assoc]
    have hhdr : encodeRow (nytFieldNames.map String.data) =
        ("headline|publication_date|author|news_desk|url\r\n").data := by rfl
    simp only [stageContent, List.map_cons, List.map_nil]
    simp [hw, hhdr, hrow, List.flatten_cons]

/-- Witness for C3 at the mock archive article of the spec, with concrete
transformers. -/
theorem flatten_maps_fields_and_stages_witness :
    flattenArticle (fun _ => Json.str "2023-05-01") (fun _ => Json.str "Jane Doe")
        c1Good =
      .ok { headline := .str "A", publication_date := .str "2023-05-01",
            author := .str "Jane Doe", news_desk := .str "Science",
            url := .str "https://x/a" } ∧
    stageContent
        [FlatRow.toRecord ⟨"A", "2023-05-01", "Jane Doe", "Science", "https://x/a"⟩]
        nytFieldNames =
      (("headline|publication_date|author|news_desk|url\r\n").data ++
        ((String.intercalate "|"
          ["A", "2023-05-01", "Jane Doe", "Science", "https://x/a"]).data ++
          ['\r', '\n']),
       none) :=
  ⟨(flatten_maps_fields_and_stages (fun _ => Json.str "2023-05-01")
      (fun _ => Json.str "Jane Doe") c1Good (.obj [("main", .str "A")])
      (.str "A") (.str "2023-05-01T00:00:00Z")
      (.obj [("original", .str "By Jane Doe")]) (.str "By Jane Doe")
      (.str "Science") (.str "https://x/a")
      rfl rfl rfl rfl rfl rfl rfl).1,
   (flatten_maps_fields_and_stages (fun _ => Json.str "2023-05-01")
      (fun _ => Json.str "Jane Doe") c1Good (.obj [("main", .str "A")])
      (.str "A") (.str "2023-05-01T00:00:00Z")
      (.obj [("original", .str "By Jane Doe")]) (.str "By Jane Doe")
      (.str "Science") (.str "https://x/a")
      rfl rfl rfl rfl rfl rfl rfl).2
      "A" "2023-05-01" "Jane Doe" "Science" "https://x/a"
      rfl rfl rfl rfl rfl
      (by decide) (by decide) (by decide) (by decide) (by decide)⟩

/-- The record used by the C6 witness. -/
def c6Rec : List (String × String) :=
  [("headline", "A"), ("publication_date", "D"), ("author", "B"),
   ("news_desk", "N"), ("url", "U")]

/-- Witness for C6 at a concrete record, field-name list, path and
writable filesystem. -/
theorem stage_writes_delimited_file_witness :
    (stage [c6Rec] nytFieldNames "staging.psv"
        ⟨fun _ => none, fun _ => true⟩).raised = none ∧
    (stage [c6Rec] nytFieldNames "staging.psv"
        ⟨fun _ => none, fun _ => true⟩).fs.files "staging.psv" =
      some (String.mk (encodeRow (nytFieldNames.map String.data) ++
        ([c6Rec].map (fun rec => encodeRow (nytFieldNames.map (fun f =>
          ((lookupField rec f).getD "").data)))).flatten)) ∧
    (∀ p, p ≠ "staging.psv" →
      (stage [c6Rec] nytFieldNames "staging.psv"
          ⟨fun _ => none, fun _ => true⟩).fs.files p =
        (⟨fun _ => none, fun _ => true⟩ : FileSystem).files p) :=
  (stage_writes_delimited_file [c6Rec] nytFieldNames "staging.psv"
    ⟨fun _ => none, fun _ => true⟩ rfl).1 (by decide)

end NewtonPipeline
